import Mathlib

/-!
Verification of the Swiss German dialect classifier (`sprach.py`).

The program's core is:
  * `naive_distance` — positional character mismatches over the overlapping
    prefix plus the absolute length difference;
  * the classification logic of `test_mode` — per-canton cumulative scores
    (sum over user sentences of the best local distance to any of the
    canton's sample phrases, lower-cased on both sides) followed by a
    strict `<` linear scan for the best canton.

Python `float` infinity (the initial value of the local best and of the
scan's running best) is modelled by `⊤ : ℕ∞`: on the values this program
produces, `min`, `+` and `<` on `ℕ∞` agree with Python's arithmetic and
comparisons on non-negative integers and `inf`.
-/

namespace Sprach

/-- The static canton → (reference phrase → dialect phrase) dictionary from
the source, as an insertion-ordered association list (Python dicts iterate
in insertion order). -/
def DIALECT_DICTIONARY : List (String × List (String × String)) :=
  [ ("Zurich",
      [ ("How are you?", "Wiemer gahts dir?"),
        ("I like eating pizza.", "Ich ha gärn Pizza ässe.") ]),
    ("Bern",
      [ ("How are you?", "Wie geit’s der?"),
        ("I like eating pizza.", "I ha gärn Pizza ässä.") ]),
    ("Basel",
      [ ("How are you?", "Wia goots dir?"),
        ("I like eating pizza.", "I mag gärn Pizza ässe.") ]) ]

/-- The High German reference sentences from the source. -/
def HIGH_GERMAN_SENTENCES : List String :=
  [ "How are you?", "I like eating pizza." ]

/-- `naive_distance` from the source: count character mismatches at each
index of the overlapping range (`range(min(len(str1), len(str2)))`,
comparing `str1[i]` with `str2[i]`), then add the absolute difference of
the lengths. -/
def naive_distance (str1 str2 : String) : Nat :=
  let min_len := min str1.length str2.length
  let mismatches :=
    (List.range min_len).countP (fun i => str1.data[i]? ≠ str2.data[i]?)
  mismatches + ((str1.length : Int) - (str2.length : Int)).natAbs

/-- Python's `str.lower()`, applied character by character (restricted, like
`Char.toLower`, to ASCII case mapping; every phrase the program compares is
affected only on ASCII letters). -/
def lower (s : String) : String := ⟨s.data.map Char.toLower⟩

/-- The corpus shape: an insertion-ordered association list from canton to
its (reference phrase, dialect phrase) pairs. -/
abbrev Corpus := List (String × List (String × String))

/-- The inner loop of `test_mode` (source lines 114–117): running best over
the canton's sample sentences, starting from the `float` infinity sentinel,
taking `min` with the distance between the lower-cased user text and the
lower-cased sample. -/
def best_local_distance (user_text : String)
    (translations : List (String × String)) : ℕ∞ :=
  (translations.map Prod.snd).foldl
    (fun best sample =>
      min best ((naive_distance (lower user_text) (lower sample) : ℕ∞)))
    ⊤

/-- One pass of the outer loop of `test_mode` (source lines 111–120): add to
each canton's score the best local distance of one user sentence. The score
list stays aligned with the dictionary: Python updates
`canton_scores[canton]` while iterating the same dict whose keys created
the score mapping. -/
def add_scores (user_text : String) (dict : Corpus)
    (scores : List (String × ℕ∞)) : List (String × ℕ∞) :=
  List.zipWith
    (fun ct cs => (cs.1, cs.2 + best_local_distance user_text ct.2)) dict scores

/-- The cumulative canton scores of `test_mode` (source lines 105–120):
every canton's score starts at `0`, then one `add_scores` pass per user
sentence. -/
def canton_scores (user_sentences : List String) (dict : Corpus) :
    List (String × ℕ∞) :=
  user_sentences.foldl (fun scores u => add_scores u dict scores)
    (dict.map (fun ct => (ct.1, (0 : ℕ∞))))

/-- The final scan of `test_mode` (source lines 122–128): linear scan with a
running best, strict `<` update, starting from `None` and the infinity
sentinel. -/
def best_canton (scores : List (String × ℕ∞)) : Option String :=
  (scores.foldl
    (fun acc cs => if cs.2 < acc.2 then (some cs.1, cs.2) else acc)
    ((none : Option String), (⊤ : ℕ∞))).1

/-- The observable outcomes of a `test_mode` run: either the run is aborted
because no sentences were entered (source lines 99–101), or scores and a
best canton are reported (source lines 103–133). The source raises no
exception on any path. -/
inductive ClassifyResult where
  | emptyInput : ClassifyResult
  | ok : List (String × ℕ∞) → Option String → ClassifyResult
  deriving DecidableEq

/-- The classification core of `test_mode`: abort before computing any
score when the sentence list is empty, otherwise report the cumulative
scores and the best canton. -/
def classify (user_sentences : List String) (dict : Corpus) : ClassifyResult :=
  if user_sentences = [] then ClassifyResult.emptyInput
  else ClassifyResult.ok (canton_scores user_sentences dict)
    (best_canton (canton_scores user_sentences dict))

/-- Spec-side (§4.3 step 3b): the minimum, over a canton's dialect phrases,
of the distance between the lower-cased user text and the lower-cased
phrase; `⊤` when the phrase set is empty. -/
def min_phrase_distance (user_text : String)
    (translations : List (String × String)) : ℕ∞ :=
  (translations.map
    (fun rp => ((naive_distance (lower user_text) (lower rp.2) : ℕ∞)))).foldr min ⊤

/-- Spec-side (§3, cumulative score): the sum, over the user sentences, of
the per-sentence minimum distance to any of the canton's phrases. -/
def cumulative_score (user_sentences : List String)
    (translations : List (String × String)) : ℕ∞ :=
  (user_sentences.map (fun u => min_phrase_distance u translations)).sum

example : naive_distance "wiemer" "wie" = 3 := by decide
example : naive_distance "" "xyz" = 3 := by decide
example : naive_distance "abc" "abd" = 1 := by decide
example : naive_distance "wiemer" "wiemer" = 0 := by decide

/-- Flipping the two sides of a mismatch test gives the same Boolean. -/
lemma decide_ne_flip (x y : Option Char) :
    (decide (x ≠ y)) = (decide (y ≠ x)) := decide_eq_decide.mpr ne_comm

/-- C8 groundwork: `naive_distance` is symmetric. -/
lemma naive_distance_comm (a b : String) :
    naive_distance a b = naive_distance b a := by
  simp only [naive_distance]
  have hpred : (fun i : Nat => decide (a.data[i]? ≠ b.data[i]?))
      = (fun i : Nat => decide (b.data[i]? ≠ a.data[i]?)) := by
    funext i; exact decide_ne_flip _ _
  rw [Nat.min_comm, hpred]
  congr 1
  omega

/-- The mismatch count of `naive_distance`, taken over any range covering
both strings, absorbs the length-difference term: past the shorter string
exactly one side is `none`, past both strings both are `none`. -/
lemma naive_distance_eq_countP_of_le (a b : String)
    (hab : a.length ≤ b.length) (N : Nat) (hN : b.length ≤ N) :
    naive_distance a b
      = (List.range N).countP (fun i => a.data[i]? ≠ b.data[i]?) := by
  have hlen1 : a.length = a.data.length := rfl
  have hlen2 : b.length = b.data.length := rfl
  simp only [naive_distance]
  rw [show N = a.length + ((b.length - a.length) + (N - b.length)) by omega,
    List.range_add, List.countP_append, List.range_add, List.map_append,
    List.countP_append, List.countP_map, List.countP_map, List.countP_map]
  have h2 : List.countP
      ((fun i : Nat => decide (a.data[i]? ≠ b.data[i]?)) ∘ fun x => a.length + x)
      (List.range (b.length - a.length)) = b.length - a.length := by
    have hall : ∀ j ∈ List.range (b.length - a.length),
        ((fun i : Nat => decide (a.data[i]? ≠ b.data[i]?))
          ∘ fun x => a.length + x) j = true := by
      intro j hj
      rw [List.mem_range] at hj
      have hnone : a.data[a.length + j]? = none :=
        List.getElem?_eq_none (by omega)
      have hlt : a.length + j < b.data.length := by omega
      simp only [Function.comp_apply]
      rw [hnone, List.getElem?_eq_getElem hlt]
      simp
    rw [List.countP_eq_length.mpr hall, List.length_range]
  have h3 : List.countP
      (((fun i : Nat => decide (a.data[i]? ≠ b.data[i]?)) ∘ fun x => a.length + x)
        ∘ fun x => b.length - a.length + x)
      (List.range (N - b.length)) = 0 := by
    rw [List.countP_eq_zero]
    intro j hj
    have hnone1 : a.data[a.length + (b.length - a.length + j)]? = none :=
      List.getElem?_eq_none (by omega)
    have hnone2 : b.data[a.length + (b.length - a.length + j)]? = none :=
      List.getElem?_eq_none (by omega)
    simp [hnone1, hnone2]
  rw [h2, h3, Nat.min_eq_left hab]
  omega

/-- As `naive_distance_eq_countP_of_le`, with no ordering assumption. -/
lemma naive_distance_eq_countP (a b : String) (N : Nat)
    (ha : a.length ≤ N) (hb : b.length ≤ N) :
    naive_distance a b
      = (List.range N).countP (fun i => a.data[i]? ≠ b.data[i]?) := by
  rcases Nat.le_total a.length b.length with h | h
  · exact naive_distance_eq_countP_of_le a b h N hb
  · rw [naive_distance_comm, naive_distance_eq_countP_of_le b a h N ha]
    congr 1
    funext i
    exact decide_ne_flip _ _

/-- Counting elements satisfying `p` is at most counting those satisfying
`q` plus those satisfying `r`, when `p` implies `q` or `r` on the list. -/
lemma countP_le_countP_add_countP {α : Type} (l : List α) (p q r : α → Bool)
    (h : ∀ x ∈ l, p x = true → q x = true ∨ r x = true) :
    l.countP p ≤ l.countP q + l.countP r := by
  induction l with
  | nil => simp
  | cons a l ih =>
    have ha := h a (List.mem_cons_self a l)
    have ih2 := ih (fun x hx hpx => h x (List.mem_cons_of_mem a hx) hpx)
    simp only [List.countP_cons]
    rcases Bool.eq_false_or_eq_true (p a) with hp | hp <;>
      rcases Bool.eq_false_or_eq_true (q a) with hq | hq <;>
        rcases Bool.eq_false_or_eq_true (r a) with hr | hr <;>
          simp [hp, hq, hr] <;>
            first
              | omega
              | (rcases ha hp with h1 | h1 <;> simp_all)

/-- Triangle inequality for `naive_distance`: over a common index range the
distance is a Hamming distance on `Option Char`-valued position lookups,
and the pointwise mismatch indicator satisfies the triangle inequality. -/
lemma naive_distance_triangle_aux (a b c : String) :
    naive_distance a c ≤ naive_distance a b + naive_distance b c := by
  have haN : a.length ≤ max a.length (max b.length c.length) := le_max_left _ _
  have hbN : b.length ≤ max a.length (max b.length c.length) :=
    le_trans (le_max_left _ _) (le_max_right _ _)
  have hcN : c.length ≤ max a.length (max b.length c.length) :=
    le_trans (le_max_right _ _) (le_max_right _ _)
  rw [naive_distance_eq_countP a c _ haN hcN,
    naive_distance_eq_countP a b _ haN hbN,
    naive_distance_eq_countP b c _ hbN hcN]
  apply countP_le_countP_add_countP
  intro i _ hp
  simp only [decide_eq_true_eq] at hp ⊢
  by_cases hab : a.data[i]? = b.data[i]?
  · right
    rw [← hab]
    exact hp
  · left
    exact hab

/-- The mismatch count over the overlapping index range equals the mismatch
count over the zip of the two character lists. -/
lemma countP_range_min_eq_zip (l1 l2 : List Char) :
    (List.range (min l1.length l2.length)).countP (fun i : Nat => l1[i]? ≠ l2[i]?)
      = (l1.zip l2).countP (fun p => p.1 ≠ p.2) := by
  induction l1 generalizing l2 with
  | nil => simp
  | cons x l1 ih =>
    cases l2 with
    | nil => simp
    | cons y l2 =>
      rw [show min (x :: l1).length (y :: l2).length = min l1.length l2.length + 1 by
            simp [List.length_cons, Nat.succ_min_succ]]
      rw [List.range_succ_eq_map, List.countP_cons, List.countP_map,
        List.zip_cons_cons, List.countP_cons]
      have hpred : ((fun i : Nat => decide ((x :: l1)[i]? ≠ (y :: l2)[i]?)) ∘ Nat.succ)
          = (fun i : Nat => decide (l1[i]? ≠ l2[i]?)) := by
        funext i
        simp [Function.comp_apply, List.getElem?_cons_succ]
      rw [hpred, ih]
      congr 1
      simp

/-- Folding `min` from the left equals `min` of the seed with the fold from
the right. -/
lemma foldl_min_eq_foldr_min (l : List ℕ∞) (x : ℕ∞) :
    l.foldl min x = min x (l.foldr min ⊤) := by
  induction l generalizing x with
  | nil => simp
  | cons a l ih =>
    rw [List.foldl_cons, List.foldr_cons, ih (min x a), min_assoc]

/-- The running-minimum loop of `test_mode` computes the spec's minimum
phrase distance. -/
lemma best_local_eq_min_phrase (u : String) (ts : List (String × String)) :
    best_local_distance u ts = min_phrase_distance u ts := by
  simp only [best_local_distance, min_phrase_distance]
  rw [show (ts.map Prod.snd).foldl
        (fun best sample =>
          min best ((naive_distance (lower u) (lower sample) : ℕ∞))) ⊤
      = ((ts.map Prod.snd).map
          (fun sample => ((naive_distance (lower u) (lower sample) : ℕ∞)))).foldl
          min ⊤ from (List.foldl_map _ _ _ _).symm]
  rw [List.map_map, foldl_min_eq_foldr_min, min_top_left]
  rfl

/-- Folding the per-sentence score updates over any initial score column
adds, canton by canton, the sum of the best local distances. -/
lemma foldl_add_scores (dict : Corpus) (us : List String)
    (f : String × List (String × String) → ℕ∞) :
    us.foldl (fun scores u => add_scores u dict scores)
        (dict.map (fun ct => (ct.1, f ct)))
      = dict.map (fun ct =>
          (ct.1, f ct + (us.map (fun u => best_local_distance u ct.2)).sum)) := by
  induction us generalizing f with
  | nil => simp
  | cons u us ih =>
    rw [List.foldl_cons]
    have hstep : add_scores u dict (dict.map (fun ct => (ct.1, f ct)))
        = dict.map (fun ct => (ct.1, f ct + best_local_distance u ct.2)) := by
      simp only [add_scores]
      rw [List.zipWith_map_right, List.zipWith_same]
    rw [hstep, ih (fun ct => f ct + best_local_distance u ct.2)]
    congr 1
    funext ct
    simp [add_assoc]

/-- Closed form of `canton_scores`: one entry per canton, in dictionary
order, holding the sum over the user sentences of the best local
distances. -/
lemma canton_scores_eq (us : List String) (dict : Corpus) :
    canton_scores us dict
      = dict.map (fun ct =>
          (ct.1, (us.map (fun u => best_local_distance u ct.2)).sum)) := by
  unfold canton_scores
  rw [foldl_add_scores dict us (fun _ => (0 : ℕ∞))]
  simp

/-- With at least one sample phrase, the best local distance is finite. -/
lemma best_local_lt_top (u : String) (ts : List (String × String))
    (h : ts ≠ []) : best_local_distance u ts < ⊤ := by
  obtain ⟨p, ps, rfl⟩ := List.exists_cons_of_ne_nil h
  rw [best_local_eq_min_phrase]
  simp only [min_phrase_distance, List.map_cons, List.foldr_cons]
  exact lt_of_le_of_lt (min_le_left _ _) (ENat.coe_lt_top _)

/-- A sum of finite extended naturals is finite. -/
lemma sum_lt_top (l : List ℕ∞) (h : ∀ x ∈ l, x < ⊤) : l.sum < ⊤ := by
  induction l with
  | nil => simp
  | cons a l ih =>
    rw [List.sum_cons, ENat.add_lt_top]
    exact ⟨h a (List.mem_cons_self a l),
      ih (fun x hx => h x (List.mem_cons_of_mem a hx))⟩

/-- When no score beats the running best, the scan of `test_mode` leaves
its accumulator unchanged. -/
lemma scan_no_update (l : List (String × ℕ∞)) (acc : Option String × ℕ∞)
    (h : ∀ p ∈ l, ¬ p.2 < acc.2) :
    l.foldl (fun acc cs => if cs.2 < acc.2 then (some cs.1, cs.2) else acc) acc
      = acc := by
  induction l with
  | nil => rfl
  | cons a l ih =>
    rw [List.foldl_cons, if_neg (h a (List.mem_cons_self a l))]
    exact ih (fun p hp => h p (List.mem_cons_of_mem a hp))

/-- When some score beats the running best, the scan of `test_mode` ends at
the first entry attaining the minimum: its value is below the initial best,
at most every entry's value, and strictly below every earlier entry's
value. -/
lemma scan_update (l : List (String × ℕ∞)) (acc : Option String × ℕ∞)
    (h : ∃ p ∈ l, p.2 < acc.2) :
    ∃ i, ∃ hi : i < l.length,
      l.foldl (fun acc cs => if cs.2 < acc.2 then (some cs.1, cs.2) else acc) acc
          = (some (l.get ⟨i, hi⟩).1, (l.get ⟨i, hi⟩).2)
        ∧ (l.get ⟨i, hi⟩).2 < acc.2
        ∧ (∀ j, ∀ hj : j < l.length, (l.get ⟨i, hi⟩).2 ≤ (l.get ⟨j, hj⟩).2)
        ∧ (∀ j, ∀ hj : j < l.length, j < i →
            (l.get ⟨i, hi⟩).2 < (l.get ⟨j, hj⟩).2) := by
  induction l generalizing acc with
  | nil => simp at h
  | cons a l ih =>
    rw [List.foldl_cons]
    by_cases hlt : a.2 < acc.2
    · rw [if_pos hlt]
      by_cases h2 : ∃ p ∈ l, p.2 < a.2
      · obtain ⟨i, hi, heq, hlt2, hmin, hfirst⟩ := ih (some a.1, a.2) h2
        refine ⟨i + 1, Nat.succ_lt_succ hi, ?_, ?_, ?_, ?_⟩
        · rw [List.get_cons_succ]
          exact heq
        · rw [List.get_cons_succ]
          exact lt_trans hlt2 hlt
        · intro j hj
          rw [List.get_cons_succ]
          cases j with
          | zero =>
            exact le_of_lt hlt2
          | succ j =>
            rw [List.get_cons_succ]
            exact hmin j (Nat.lt_of_succ_lt_succ hj)
        · intro j hj hji
          rw [List.get_cons_succ]
          cases j with
          | zero =>
            exact hlt2
          | succ j =>
            rw [List.get_cons_succ]
            exact hfirst j (Nat.lt_of_succ_lt_succ hj) (Nat.lt_of_succ_lt_succ hji)
      · push_neg at h2
        refine ⟨0, Nat.succ_pos _, ?_, ?_, ?_, ?_⟩
        · exact scan_no_update l (some a.1, a.2)
            (fun p hp => not_lt.mpr (h2 p hp))
        · exact hlt
        · intro j hj
          cases j with
          | zero =>
            exact le_refl _
          | succ j =>
            exact h2 _ (List.get_mem l j (Nat.lt_of_succ_lt_succ hj))
        · intro j hj hji
          exact absurd hji (Nat.not_lt_zero j)
    · rw [if_neg hlt]
      have h2 : ∃ p ∈ l, p.2 < acc.2 := by
        rcases h with ⟨p, hp, hplt⟩
        rcases List.mem_cons.mp hp with rfl | hpl
        · exact absurd hplt hlt
        · exact ⟨p, hpl, hplt⟩
      obtain ⟨i, hi, heq, hlt2, hmin, hfirst⟩ := ih acc h2
      have hale : (l.get ⟨i, hi⟩).2 < a.2 :=
        lt_of_lt_of_le hlt2 (not_lt.mp hlt)
      refine ⟨i + 1, Nat.succ_lt_succ hi, ?_, ?_, ?_, ?_⟩
      · rw [List.get_cons_succ]
        exact heq
      · rw [List.get_cons_succ]
        exact hlt2
      · intro j hj
        rw [List.get_cons_succ]
        cases j with
        | zero =>
          exact le_of_lt hale
        | succ j =>
          rw [List.get_cons_succ]
          exact hmin j (Nat.lt_of_succ_lt_succ hj)
      · intro j hj hji
        rw [List.get_cons_succ]
        cases j with
        | zero =>
          exact hale
        | succ j =>
          rw [List.get_cons_succ]
          exact hfirst j (Nat.lt_of_succ_lt_succ hj) (Nat.lt_of_succ_lt_succ hji)

/-- C1: for every non-empty sequence of user sentences and every corpus,
the scores mapping has exactly the corpus's regions as keys, and every
region's final score is the sum, over the user sentences, of the minimum
over the region's dialect phrases of the distance between the lower-cased
sentence and the lower-cased phrase. -/
theorem canton_scores_characterization (us : List String) (dict : Corpus)
    (h : us ≠ []) :
    (canton_scores us dict).map Prod.fst = dict.map Prod.fst
    ∧ canton_scores us dict
        = dict.map (fun ct => (ct.1, cumulative_score us ct.2)) := by
  have he : canton_scores us dict
      = dict.map (fun ct => (ct.1, cumulative_score us ct.2)) := by
    rw [canton_scores_eq]
    congr 1
    funext ct
    simp only [cumulative_score]
    congr 2
    apply List.map_congr_left
    intro u _
    exact best_local_eq_min_phrase u ct.2
  refine ⟨?_, he⟩
  rw [he, List.map_map]
  rfl

/-- C1 witness: the characterization at the program's own corpus and the
single sentence "wiemer". -/
theorem canton_scores_characterization_witness :
    (["wiemer"] : List String) ≠ []
    ∧ ((canton_scores ["wiemer"] DIALECT_DICTIONARY).map Prod.fst
          = DIALECT_DICTIONARY.map Prod.fst
      ∧ canton_scores ["wiemer"] DIALECT_DICTIONARY
          = DIALECT_DICTIONARY.map
              (fun ct => (ct.1, cumulative_score ["wiemer"] ct.2))) :=
  ⟨by decide,
    canton_scores_characterization ["wiemer"] DIALECT_DICTIONARY (by decide)⟩

/-- C2: over a corpus whose regions all have non-empty translation sets,
the reported best region is a region of minimum cumulative score, and every
region listed before it has a strictly larger score (first-minimum-wins
under the strict `<` scan); over an empty corpus the best region is none. -/
theorem best_canton_first_minimum (us : List String) (dict : Corpus)
    (hne : ∀ ct ∈ dict, ct.2 ≠ []) :
    (dict = [] → best_canton (canton_scores us dict) = none)
    ∧ (dict ≠ [] → ∃ i, ∃ hi : i < (canton_scores us dict).length,
        best_canton (canton_scores us dict)
            = some ((canton_scores us dict).get ⟨i, hi⟩).1
          ∧ (∀ j, ∀ hj : j < (canton_scores us dict).length,
              ((canton_scores us dict).get ⟨i, hi⟩).2
                ≤ ((canton_scores us dict).get ⟨j, hj⟩).2)
          ∧ (∀ j, ∀ hj : j < (canton_scores us dict).length, j < i →
              ((canton_scores us dict).get ⟨i, hi⟩).2
                < ((canton_scores us dict).get ⟨j, hj⟩).2)) := by
  constructor
  · rintro rfl
    have h0 : canton_scores us ([] : Corpus) = [] := by
      rw [canton_scores_eq]
      rfl
    rw [h0]
    rfl
  · intro hd
    have hfin : ∀ p ∈ canton_scores us dict, p.2 < ⊤ := by
      rw [canton_scores_eq]
      intro p hp
      rw [List.mem_map] at hp
      obtain ⟨ct, hct, rfl⟩ := hp
      apply sum_lt_top
      intro x hx
      rw [List.mem_map] at hx
      obtain ⟨u, _, rfl⟩ := hx
      exact best_local_lt_top u ct.2 (hne ct hct)
    have hn : canton_scores us dict ≠ [] := by
      rw [canton_scores_eq]
      simp only [Ne, List.map_eq_nil_iff]
      exact hd
    have hex : ∃ p ∈ canton_scores us dict,
        p.2 < ((none : Option String), (⊤ : ℕ∞)).2 := by
      obtain ⟨p, ps, hp⟩ := List.exists_cons_of_ne_nil hn
      refine ⟨p, ?_, ?_⟩
      · rw [hp]
        exact List.mem_cons_self _ _
      · exact hfin p (by rw [hp]; exact List.mem_cons_self _ _)
    obtain ⟨i, hi, heq, _, hmin, hfirst⟩ :=
      scan_update (canton_scores us dict) (none, ⊤) hex
    refine ⟨i, hi, ?_, hmin, hfirst⟩
    simp only [best_canton]
    rw [heq]

/-- C2 witness: the scan properties at the program's own corpus and the
single sentence "wiemer". -/
theorem best_canton_first_minimum_witness :
    (∀ ct ∈ DIALECT_DICTIONARY, ct.2 ≠ [])
    ∧ ((DIALECT_DICTIONARY = [] →
          best_canton (canton_scores ["wiemer"] DIALECT_DICTIONARY) = none)
      ∧ (DIALECT_DICTIONARY ≠ [] → ∃ i,
          ∃ hi : i < (canton_scores ["wiemer"] DIALECT_DICTIONARY).length,
          best_canton (canton_scores ["wiemer"] DIALECT_DICTIONARY)
              = some ((canton_scores ["wiemer"] DIALECT_DICTIONARY).get ⟨i, hi⟩).1
            ∧ (∀ j, ∀ hj : j < (canton_scores ["wiemer"] DIALECT_DICTIONARY).length,
                ((canton_scores ["wiemer"] DIALECT_DICTIONARY).get ⟨i, hi⟩).2
                  ≤ ((canton_scores ["wiemer"] DIALECT_DICTIONARY).get ⟨j, hj⟩).2)
            ∧ (∀ j, ∀ hj : j < (canton_scores ["wiemer"] DIALECT_DICTIONARY).length,
                j < i →
                ((canton_scores ["wiemer"] DIALECT_DICTIONARY).get ⟨i, hi⟩).2
                  < ((canton_scores ["wiemer"] DIALECT_DICTIONARY).get ⟨j, hj⟩).2))) :=
  ⟨by decide,
    best_canton_first_minimum ["wiemer"] DIALECT_DICTIONARY (by decide)⟩

/-- C4 as stated is false on the code: on a corpus with an empty
translation set the run does not fail — `test_mode` raises nothing — it
returns a scores mapping carrying the infinity sentinel for the empty
region, and no best canton. -/
theorem classify_empty_translations_no_error :
    classify ["hi"] [("X", [])]
      = ClassifyResult.ok [("X", (⊤ : ℕ∞))] none := by decide

/-- C4 (amended): if a region's translation set is empty, classification
over a non-empty sentence list does not fail; that region's cumulative
score is the infinity sentinel (the running best is never lowered from its
`float` infinity start). -/
theorem canton_scores_empty_translations_top (us : List String)
    (dict : Corpus) (i : Nat) (hi : i < dict.length) (hus : us ≠ [])
    (hempty : (dict.get ⟨i, hi⟩).2 = []) :
    ∃ hi2 : i < (canton_scores us dict).length,
      ((canton_scores us dict).get ⟨i, hi2⟩).2 = ⊤ := by
  have hlen : (canton_scores us dict).length = dict.length := by
    rw [canton_scores_eq, List.length_map]
  refine ⟨by omega, ?_⟩
  have hsc := canton_scores_eq us dict
  rw [List.get_eq_getElem]
  simp only [hsc, List.getElem_map]
  have hbl : ∀ u : String, best_local_distance u dict[i].2 = ⊤ := by
    intro u
    rw [show dict[i].2 = [] from hempty]
    rfl
  simp only [hbl]
  obtain ⟨u0, us0, rfl⟩ := List.exists_cons_of_ne_nil hus
  simp only [List.map_cons, List.sum_cons]
  exact top_add _

/-- C4 amended witness: at a one-region corpus with no phrases, the
region's score is the infinity sentinel. -/
theorem canton_scores_empty_translations_top_witness :
    ∃ hi2 : 0 < (canton_scores ["hi"] [("X", [])]).length,
      ((canton_scores ["hi"] [("X", [])]).get ⟨0, hi2⟩).2 = ⊤ :=
  canton_scores_empty_translations_top ["hi"] [("X", [])] 0
    (by decide) (by decide) (by decide)

/-- C5: classification with an empty sentence list aborts the run before
any score is computed — the code prints a message and returns to the menu,
which is the `emptyInput` outcome, not a crash. -/
theorem classify_empty_input (dict : Corpus) :
    classify [] dict = ClassifyResult.emptyInput := rfl

/-- C6: two sentence lists that agree after lower-casing classify
identically — both the scores mapping and the best region — because every
user sentence enters the distance only lower-cased. -/
theorem classify_case_insensitive (us vs : List String) (dict : Corpus)
    (h : us.map lower = vs.map lower) :
    classify us dict = classify vs dict := by
  have hfac : ∀ (ws : List String) (ts : List (String × String)),
      ws.map (fun u => best_local_distance u ts)
        = (ws.map lower).map
            (fun w => (ts.map Prod.snd).foldl
              (fun best sample =>
                min best ((naive_distance w (lower sample) : ℕ∞))) ⊤) := by
    intro ws ts
    rw [List.map_map]
    rfl
  have hsc : canton_scores us dict = canton_scores vs dict := by
    rw [canton_scores_eq, canton_scores_eq]
    congr 1
    funext ct
    congr 1
    rw [hfac us ct.2, hfac vs ct.2, h]
  by_cases hu : us = []
  · subst hu
    simp only [List.map_nil] at h
    have hv : vs = [] := List.map_eq_nil_iff.mp h.symm
    subst hv
    rfl
  · have hv : vs ≠ [] := by
      intro hv0
      subst hv0
      simp only [List.map_nil] at h
      exact hu (List.map_eq_nil_iff.mp h)
    simp only [classify, if_neg hu, if_neg hv, hsc]

/-- C6 witness: the spec's own scenario, "WIEMER" against "wiemer", on the
program's corpus. -/
theorem classify_case_insensitive_witness :
    (["WIEMER"] : List String).map lower = (["wiemer"] : List String).map lower
    ∧ classify ["WIEMER"] DIALECT_DICTIONARY
        = classify ["wiemer"] DIALECT_DICTIONARY :=
  ⟨by decide,
    classify_case_insensitive ["WIEMER"] ["wiemer"] DIALECT_DICTIONARY
      (by decide)⟩

/-- C7: permuting the user sentences changes neither the scores mapping nor
the best region: each sentence is scored independently and the per-region
scores are sums. -/
theorem classify_perm_invariant (us vs : List String) (dict : Corpus)
    (h : us.Perm vs) :
    classify us dict = classify vs dict := by
  have hsc : canton_scores us dict = canton_scores vs dict := by
    rw [canton_scores_eq, canton_scores_eq]
    congr 1
    funext ct
    congr 1
    exact (h.map (fun u => best_local_distance u ct.2)).sum_eq
  by_cases hu : us = []
  · subst hu
    have hv : vs = [] := h.symm.eq_nil
    subst hv
    rfl
  · have hv : vs ≠ [] := by
      intro hv0
      subst hv0
      exact hu h.eq_nil
    simp only [classify, if_neg hu, if_neg hv, hsc]

/-- C7 witness: swapping two sentences on the program's corpus. -/
theorem classify_perm_invariant_witness :
    (["wiemer", "wie"] : List String).Perm ["wie", "wiemer"]
    ∧ classify ["wiemer", "wie"] DIALECT_DICTIONARY
        = classify ["wie", "wiemer"] DIALECT_DICTIONARY :=
  ⟨by decide,
    classify_perm_invariant ["wiemer", "wie"] ["wie", "wiemer"]
      DIALECT_DICTIONARY (by decide)⟩

/-- C3: `naive_distance` equals the count of positions, below the length of
the shorter string, holding different characters, plus the absolute
difference of the lengths; it is total on all strings (it is a total Lean
function into `ℕ`, so non-negative), and on an empty argument it returns
the other argument's length. -/
theorem naive_distance_characterization (a b : String) :
    naive_distance a b
      = (a.data.zip b.data).countP (fun p => p.1 ≠ p.2)
          + Nat.dist a.length b.length
    ∧ naive_distance "" b = b.length
    ∧ naive_distance a "" = a.length := by
  refine ⟨?_, ?_, ?_⟩
  · simp only [naive_distance]
    rw [show min a.length b.length = min a.data.length b.data.length from rfl,
      countP_range_min_eq_zip a.data b.data]
    congr 1
    simp [Nat.dist]
    omega
  · have h0 : ("" : String).length = 0 := rfl
    simp only [naive_distance, h0]
    simp
  · have h0 : ("" : String).length = 0 := rfl
    simp only [naive_distance, h0]
    simp

/-- C8: `naive_distance` is symmetric in its two arguments, for strings of
any lengths. -/
theorem naive_distance_symmetric (a b : String) :
    naive_distance a b = naive_distance b a := naive_distance_comm a b

/-- C9 as stated is false on the code: no triple of strings violates the
triangle inequality, because over a common index range `naive_distance` is
a Hamming distance on `Option Char`-valued position lookups. -/
theorem naive_distance_no_triangle_violation :
    ¬ ∃ a b c : String,
        naive_distance a b + naive_distance b c < naive_distance a c := by
  rintro ⟨a, b, c, hlt⟩
  exact absurd (naive_distance_triangle_aux a b c) (not_le.mpr hlt)

/-- C9 (amended): `naive_distance` does satisfy the triangle inequality on
all strings. -/
theorem naive_distance_triangle (a b c : String) :
    naive_distance a c ≤ naive_distance a b + naive_distance b c :=
  naive_distance_triangle_aux a b c

/-- C10: a zero distance forces equal lengths and equal characters at every
overlapping position, so the two strings are equal. -/
theorem naive_distance_eq_zero_imp_eq (a b : String)
    (h : naive_distance a b = 0) : a = b := by
  have e1 : a.length = a.data.length := rfl
  have e2 : b.length = b.data.length := rfl
  simp only [naive_distance] at h
  have hcount : (List.range (min a.length b.length)).countP
      (fun i : Nat => a.data[i]? ≠ b.data[i]?) = 0 := by omega
  have hlen : a.length = b.length := by omega
  rw [List.countP_eq_zero] at hcount
  apply String.ext
  apply List.ext_getElem?
  intro n
  by_cases hn : n < a.data.length
  · have hmem : n ∈ List.range (min a.length b.length) :=
      List.mem_range.mpr (by omega)
    have hne := hcount n hmem
    simpa using hne
  · rw [List.getElem?_eq_none (by omega), List.getElem?_eq_none (by omega)]

/-- C10 witness: the only way to get distance zero is string equality. -/
theorem naive_distance_eq_zero_imp_eq_witness :
    naive_distance "wiemer gahts dir?" "wiemer gahts dir?" = 0
    ∧ ("wiemer gahts dir?" : String) = "wiemer gahts dir?" :=
  ⟨by decide,
    naive_distance_eq_zero_imp_eq "wiemer gahts dir?" "wiemer gahts dir?"
      (by decide)⟩

end Sprach
